import Mathlib

/-!
Shallow embedding of the linearization-validity checker of the `loopy`
repository (`loopy/schedule/checker/`): the pairwise lexicographic schedule
builder (`schedule.py`), the dimension-name alignment utilities (`utils.py`),
the validity-checking orchestrator (`__init__.py`), and the lexicographic
order map together with the statement-instance-ordering composition
(these last two live in `lexicographic_order_map.py`, which is absent from
the sources; they are modelled from the spec, as marked on each definition).
-/

namespace Loopy

/-! ## Linearization items (`loopy/schedule`: EnterLoop, LeaveLoop,
RunInstruction, Barrier), as consumed by the checker. -/

inductive LinearizationItem where
  | enterLoop (iname : String)
  | leaveLoop (iname : String)
  | runInstruction (insn_id : String)
  | barrier (originating_insn_id : Option String)
deriving DecidableEq, Repr

/-- `utils.get_insn_id_from_linearization_item`: a Barrier yields its
(optional) originating instruction id, a RunInstruction its instruction id.
The checker never applies this to EnterLoop or LeaveLoop items; those
return `none` here. -/
def get_insn_id_from_linearization_item : LinearizationItem → Option String
  | .barrier orig => orig
  | .runInstruction insn_id => some insn_id
  | .enterLoop _ => none
  | .leaveLoop _ => none

/-! ## The pairwise schedule builder (`schedule.LexSchedule`) -/

/-- One entry of a lexicographic point: a literal integer ordinal or a
symbolic loop-variable (iname) reference. -/
inductive LexEntry where
  | nat (n : Nat)
  | iname (s : String)
deriving DecidableEq, Repr

/-- `schedule.LexScheduleStatement` (the `within_inames` field is unused by
the walk itself and omitted). -/
structure LexScheduleStatement where
  insn_id : String
  int_id : Nat
deriving DecidableEq, Repr

/-- `schedule.LexScheduleStatementInstance`. -/
structure LexScheduleStatementInstance where
  stmt : LexScheduleStatement
  lex_pt : List LexEntry
deriving DecidableEq, Repr

/-- The Python statement `next_insn_lex_pt[-1] = next_insn_lex_pt[-1]+1`:
defined when the list is nonempty and its last entry is an integer
(otherwise the source would raise), hence the `Option`. -/
def incLast : List LexEntry → Option (List LexEntry)
  | [] => none
  | [LexEntry.nat n] => some [LexEntry.nat (n + 1)]
  | [LexEntry.iname _] => none
  | x :: y :: rest => (incLast (y :: rest)).map (x :: ·)

/-- The Python statement `xs.pop()`: drop the last element, undefined on an
empty list. -/
def popLast {α : Type} : List α → Option (List α)
  | [] => none
  | xs => some xs.dropLast

/-- The Python statement `tiers[-1] = False`. -/
def setLastFalse (tiers : List Bool) : List Bool :=
  tiers.dropLast ++ [false]

/-- The mutable state of the linearization walk in `LexSchedule.__init__`:
the growing lexicographic point, the per-tier statement-added flags, the
running statement-index counter, and the two (initially absent) recorded
statement instances. -/
structure WalkState where
  next_insn_lex_pt : List LexEntry
  stmt_added_tiers : List Bool
  next_sid : Nat
  stmt_instance_before : Option LexScheduleStatementInstance
  stmt_instance_after : Option LexScheduleStatementInstance
deriving DecidableEq, Repr

/-- Initial walk state of `LexSchedule.__init__`: lex point `[0]`, one
tier flag `False`, statement counter `0`, no recorded instances. -/
def initWalkState : WalkState :=
  { next_insn_lex_pt := [LexEntry.nat 0]
    stmt_added_tiers := [false]
    next_sid := 0
    stmt_instance_before := none
    stmt_instance_after := none }

/-- The RunInstruction/Barrier branch of the walk, after a non-`None`
instruction id `lp_insn_id` has been extracted: record the before and/or
after instance when the id matches, and when anything was recorded,
increment the last lex dimension, bump the statement counter, and set every
tier flag to `True`. -/
def processStmtItem (before_insn_id after_insn_id : String) (st : WalkState)
    (lp_insn_id : String) : Option WalkState :=
  if lp_insn_id = before_insn_id ∨ lp_insn_id = after_insn_id then
    match incLast st.next_insn_lex_pt with
    | none => none
    | some pt =>
        some { next_insn_lex_pt := pt
               stmt_added_tiers := List.replicate st.stmt_added_tiers.length true
               next_sid := st.next_sid + 1
               stmt_instance_before :=
                 if lp_insn_id = before_insn_id then
                   some { stmt := { insn_id := lp_insn_id, int_id := st.next_sid }
                          lex_pt := st.next_insn_lex_pt }
                 else st.stmt_instance_before
               stmt_instance_after :=
                 if lp_insn_id = after_insn_id then
                   some { stmt := { insn_id := lp_insn_id, int_id := st.next_sid }
                          lex_pt := st.next_insn_lex_pt }
                 else st.stmt_instance_after }
  else
    -- With no id match, the source keeps both recorded instances and
    -- leaves the rest of the state untouched.
    some st

/-- One iteration of the `for linearization_item in ...` loop body of
`LexSchedule.__init__` (without the final both-recorded break test).
`none` models the source raising on a malformed linearization
(index/pop on an empty list). -/
def processItem (before_insn_id after_insn_id : String)
    (loops_to_ignore : List String) (st : WalkState) :
    LinearizationItem → Option WalkState
  | .enterLoop iname =>
      if iname ∈ loops_to_ignore then some st
      else
        match st.stmt_added_tiers.getLast? with
        | none => none
        | some addedTop =>
            if addedTop then
              match incLast st.next_insn_lex_pt with
              | none => none
              | some pt =>
                  some { st with
                    next_insn_lex_pt := pt ++ [LexEntry.iname iname, LexEntry.nat 0]
                    stmt_added_tiers := setLastFalse st.stmt_added_tiers ++ [false] }
            else
              some { st with
                next_insn_lex_pt :=
                  st.next_insn_lex_pt ++ [LexEntry.iname iname, LexEntry.nat 0]
                stmt_added_tiers := st.stmt_added_tiers ++ [false] }
  | .leaveLoop iname =>
      if iname ∈ loops_to_ignore then some st
      else
        match popLast st.next_insn_lex_pt with
        | none => none
        | some pt1 =>
            match popLast pt1 with
            | none => none
            | some pt2 =>
                match popLast st.stmt_added_tiers with
                | none => none
                | some tiers1 =>
                    match tiers1.getLast? with
                    | none => none
                    | some addedTop =>
                        if addedTop then
                          match incLast pt2 with
                          | none => none
                          | some pt3 =>
                              some { st with
                                next_insn_lex_pt := pt3
                                stmt_added_tiers := setLastFalse tiers1 }
                        else
                          some { st with
                            next_insn_lex_pt := pt2
                            stmt_added_tiers := tiers1 }
  | .runInstruction insn_id =>
      match get_insn_id_from_linearization_item (.runInstruction insn_id) with
      | none => some st
      | some lp_insn_id => processStmtItem before_insn_id after_insn_id st lp_insn_id
  | .barrier orig =>
      match get_insn_id_from_linearization_item (.barrier orig) with
      | none => some st
      | some lp_insn_id => processStmtItem before_insn_id after_insn_id st lp_insn_id

/-- The walk loop of `LexSchedule.__init__`, including the early break once
both statement instances have been recorded. -/
def walkLinearization (before_insn_id after_insn_id : String)
    (loops_to_ignore : List String) :
    WalkState → List LinearizationItem → Option WalkState
  | st, [] => some st
  | st, item :: rest =>
      match processItem before_insn_id after_insn_id loops_to_ignore st item with
      | none => none
      | some st1 =>
          if st1.stmt_instance_before.isSome ∧ st1.stmt_instance_after.isSome then
            some st1
          else
            walkLinearization before_insn_id after_insn_id loops_to_ignore st1 rest

/-- `LexSchedule.max_lex_dims`. -/
def max_lex_dims (b a : LexScheduleStatementInstance) : Nat :=
  max b.lex_pt.length a.lex_pt.length

/-- The inner `_pad_lex_pt_with_zeros` of `LexSchedule.pad_lex_pts_with_zeros`. -/
def pad_lex_pt_with_zeros (stmt_inst : LexScheduleStatementInstance)
    (length : Nat) : LexScheduleStatementInstance :=
  { stmt := stmt_inst.stmt
    lex_pt := stmt_inst.lex_pt ++
      List.replicate (length - stmt_inst.lex_pt.length) (LexEntry.nat 0) }

/-- `LexSchedule.__init__` end to end: walk the linearization items, then
pad both recorded lexicographic points with trailing zeros to the common
maximum length (`pad_lex_pts_with_zeros`). `none` models the source
raising: a malformed linearization, or a target instruction id that was
never recorded (so `max_lex_dims` dereferences `None`). -/
def buildLexSchedule (linearization_items_ordered : List LinearizationItem)
    (before_insn_id after_insn_id : String) (loops_to_ignore : List String) :
    Option (LexScheduleStatementInstance × LexScheduleStatementInstance) :=
  match walkLinearization before_insn_id after_insn_id loops_to_ignore
      initWalkState linearization_items_ordered with
  | none => none
  | some st =>
      match st.stmt_instance_before, st.stmt_instance_after with
      | some b, some a =>
          let m := max_lex_dims b a
          some (pad_lex_pt_with_zeros b m, pad_lex_pt_with_zeros a m)
      | _, _ => none

/-! ## The lexicographic order map
(`loopy/schedule/checker/lexicographic_order_map.py`). That file is not
among the sources (only its callers in `__init__.py` / `schedule.py` and
its test `test_lex_order_map_creation` are), so its two functions are
modelled from the spec. Tuples are integer lists, indexed with default `0`
(every index the relation inspects is below the dimensionality, so the
default is never read on well-sized tuples). -/

/-- Clause `i` of the lexicographic order relation: strict less-than on
dimension `i` together with equality on every dimension below `i`. -/
def lex_order_clause (i : Nat) (xs ys : List Int) : Prop :=
  xs.getD i 0 < ys.getD i 0 ∧ ∀ j, j < i → xs.getD j 0 = ys.getD j 0

/-- Modelled from the spec: the clause accumulation inside
`lexicographic_order_map.create_lex_order_map` (absent from the sources).
The relation starts from the bare strict-less clause on dimension 0 and
each further step disjoins the clause for the next dimension. -/
def get_lex_order_constraint (xs ys : List Int) : Nat → Prop
  | 0 => xs.getD 0 0 < ys.getD 0 0
  | i + 1 => get_lex_order_constraint xs ys i ∨ lex_order_clause (i + 1) xs ys

/-- Modelled from the spec: `lexicographic_order_map.create_lex_order_map`
(absent from the sources) for dimensionality `n_dims`, the strictly
lexicographically-less relation over two `n_dims`-tuples of integers,
built as the union of the clauses for dimensions `0` to `n_dims - 1`. -/
def create_lex_order_map (n_dims : Nat) (xs ys : List Int) : Prop :=
  get_lex_order_constraint xs ys (n_dims - 1)

instance (i : Nat) (xs ys : List Int) : Decidable (lex_order_clause i xs ys) := by
  unfold lex_order_clause; infer_instance

instance instDecGetLexOrderConstraint (xs ys : List Int) :
    (n : Nat) → Decidable (get_lex_order_constraint xs ys n)
  | 0 => inferInstanceAs (Decidable (xs.getD 0 0 < ys.getD 0 0))
  | n + 1 =>
      letI := instDecGetLexOrderConstraint xs ys n
      inferInstanceAs (Decidable (_ ∨ lex_order_clause (n + 1) xs ys))

instance (n_dims : Nat) (xs ys : List Int) :
    Decidable (create_lex_order_map n_dims xs ys) := by
  unfold create_lex_order_map; infer_instance

/-! ## The statement instance ordering
(`lexicographic_order_map.get_statement_ordering_map`, also absent from
the sources and modelled from the spec). The trusted integer-set library
is represented by binary relations with its two primitives used here. -/

/-- A relation between instance tuples, standing for an isl map. -/
def MapRel (α β : Type) : Type := α → β → Prop

/-- The isl primitive `apply_range`: relational composition. -/
def MapRel.apply_range {α β γ : Type} (m : MapRel α β) (r : MapRel β γ) :
    MapRel α γ :=
  fun x z => ∃ y, m x y ∧ r y z

/-- The isl primitive `reverse`: relation inversion. -/
def MapRel.reverse {α β : Type} (m : MapRel α β) : MapRel β α :=
  fun y x => m x y

/-- Modelled from the spec:
`lexicographic_order_map.get_statement_ordering_map` (absent from the
sources) composes the before schedule map with the lexicographic order map
and with the reversed after schedule map. -/
def get_statement_ordering_map {α β γ : Type} (sched_map_before : MapRel α β)
    (sched_map_after : MapRel γ β) (lex_map : MapRel β β) : MapRel α γ :=
  (sched_map_before.apply_range lex_map).apply_range sched_map_after.reverse

/-! ## Dimension-name alignment (`utils.py`) and the validity checker
(`__init__.check_linearization_validity`). An isl map is represented as a
named-dimension finite relation: the in/out/param dimension names plus the
set of (input tuple, output tuple) value rows. -/

/-- A named-space finite relation standing for an isl map. -/
structure NamedMap where
  in_names : List String
  out_names : List String
  param_names : List String
  pairs : List (List Int × List Int)
deriving DecidableEq, Repr

/-- The Python test `set(obj_map_names) == set(desired_names)` used by
`utils.map_names_match_check` with `assert_permutation=True`. -/
def same_name_set (a b : List String) : Bool :=
  a.all (fun n => b.contains n) && b.all (fun n => a.contains n)

/-- `utils.map_names_match_check` in its `assert_permutation=True` form (the
only form the alignment path uses): raise `ValueError` when the name sets
differ. -/
def map_names_match_check (obj_map_names desired_names : List String) :
    Except String Unit :=
  if same_name_set obj_map_names desired_names then Except.ok ()
  else Except.error "Set of map names does not match target set"

/-- Value reordering performed by the isl primitive `align_spaces` on one
tuple: each target dimension takes the value the object map held under the
same name. -/
def alignTuple (obj_names tgt_names : List String) (vals : List Int) :
    List Int :=
  tgt_names.map fun nm =>
    match obj_names.indexOf? nm with
    | some i => vals.getD i 0
    | none => 0

/-- The isl primitive `align_spaces`: rebuild the object map in the target
space, permuting row values by dimension name. -/
def align_spaces (obj_map tgt_map : NamedMap) : NamedMap :=
  { in_names := tgt_map.in_names
    out_names := tgt_map.out_names
    param_names := tgt_map.param_names
    pairs := obj_map.pairs.map fun p =>
      (alignTuple obj_map.in_names tgt_map.in_names p.1,
       alignTuple obj_map.out_names tgt_map.out_names p.2) }

/-- `utils.ensure_dim_names_match_and_align`: check that the in, out and
param dimension-name sets each match, then align the object map to the
target space. -/
def ensure_dim_names_match_and_align (obj_map tgt_map : NamedMap) :
    Except String NamedMap := do
  map_names_match_check obj_map.in_names tgt_map.in_names
  map_names_match_check obj_map.out_names tgt_map.out_names
  map_names_match_check obj_map.param_names tgt_map.param_names
  Except.ok (align_spaces obj_map tgt_map)

/-- The isl primitive `is_subset` on the finite-relation model: every row
of the first map is a row of the second. -/
def NamedMap.is_subset (a b : NamedMap) : Bool :=
  a.pairs.all (fun p => b.pairs.contains p)

/-- One iteration of the dependency loop of
`__init__.check_linearization_validity`. The per-dependency pipeline that
produces the constraint map (`create_dependency_constraint`, whose module
is absent from the sources) and the SIO (schedule build plus
`get_statement_ordering_map`) is abstracted into the two function
arguments; the body aligns the constraint map to the SIO space (which may
raise), tests the subset inclusion, clears the validity flag on failure,
and prints diagnostics — the printed failing dependencies are accumulated
in the second accumulator component. -/
def check_one_dependency {D : Type} (constraint_map_of sio_of : D → NamedMap)
    (acc : Bool × List D) (dep : D) : Except String (Bool × List D) := do
  let sio := sio_of dep
  let constraint_map := constraint_map_of dep
  let aligned_constraint_map ← ensure_dim_names_match_and_align
    constraint_map sio
  if aligned_constraint_map.is_subset sio then pure acc
  else pure (false, acc.2 ++ [dep])

/-- `__init__.check_linearization_validity`: fold the per-dependency check
over the dependency list, starting from a set validity flag and an empty
diagnostics log. -/
def check_linearization_validity {D : Type} (statement_pair_dep_sets : List D)
    (constraint_map_of sio_of : D → NamedMap) :
    Except String (Bool × List D) :=
  statement_pair_dep_sets.foldlM
    (check_one_dependency constraint_map_of sio_of) (true, [])

/-- Whether one dependency passes its subset test after alignment (a failed
alignment counts as not passing; it in fact aborts the whole run). -/
def dep_passes {D : Type} (constraint_map_of sio_of : D → NamedMap)
    (d : D) : Bool :=
  match ensure_dim_names_match_and_align (constraint_map_of d) (sio_of d) with
  | Except.ok m => m.is_subset (sio_of d)
  | Except.error _ => false

/-! ## Theorems -/

/-- C7: a Barrier linearization item whose originating statement id is
`None` is silently skipped by the schedule walk: the walk state is
returned unchanged (no statement instance recorded, no change to the
lexicographic point or the statement-index counter) and no error is
raised. -/
theorem barrier_without_id_silently_skipped
    (before_insn_id after_insn_id : String) (loops_to_ignore : List String)
    (st : WalkState) :
    processItem before_insn_id after_insn_id loops_to_ignore st
      (LinearizationItem.barrier none) = some st :=
  rfl

/-- C1: the statement instance ordering computed by the checker (the
composition of the before schedule map, the lexicographic order map, and
the reversed after schedule map) equals the relation containing `x → y`
exactly when some lex points `lex_x`, `lex_y` satisfy
`before-map(x) = lex_x`, `after-map(y) = lex_y`, and `lex_x` is
lexicographically before `lex_y`. -/
theorem statement_ordering_map_contract {α β γ : Type}
    (sched_map_before : MapRel α β) (sched_map_after : MapRel γ β)
    (lex_map : MapRel β β) (x : α) (y : γ) :
    get_statement_ordering_map sched_map_before sched_map_after lex_map x y ↔
      ∃ lex_x lex_y, sched_map_before x lex_x ∧ sched_map_after y lex_y ∧
        lex_map lex_x lex_y := by
  constructor
  · rintro ⟨ly, ⟨lx, hb, hlex⟩, ha⟩
    exact ⟨lx, ly, hb, ha, hlex⟩
  · rintro ⟨lx, ly, hb, ha, hlex⟩
    exact ⟨ly, ⟨lx, hb, hlex⟩, ha⟩

section LexOrderMap

/-- The clause accumulation up to index `m` holds exactly when some clause
with index at most `m` holds. -/
lemma get_lex_order_constraint_iff (xs ys : List Int) (m : Nat) :
    get_lex_order_constraint xs ys m ↔
      ∃ k, k ≤ m ∧ lex_order_clause k xs ys := by
  induction m with
  | zero =>
      simp only [get_lex_order_constraint]
      constructor
      · intro h
        exact ⟨0, le_refl 0, h, fun j hj => absurd hj (Nat.not_lt_zero j)⟩
      · rintro ⟨k, hk, hlt, _⟩
        obtain rfl : k = 0 := Nat.le_zero.mp hk
        exact hlt
  | succ m ih =>
      simp only [get_lex_order_constraint]
      constructor
      · rintro (h | h)
        · obtain ⟨k, hk, hc⟩ := ih.mp h
          exact ⟨k, Nat.le_succ_of_le hk, hc⟩
        · exact ⟨m + 1, le_refl _, h⟩
      · rintro ⟨k, hk, hc⟩
        rcases Nat.lt_or_ge k (m + 1) with hlt | hge
        · exact Or.inl (ih.mpr ⟨k, Nat.lt_succ_iff.mp hlt, hc⟩)
        · obtain rfl : k = m + 1 := le_antisymm hk hge
          exact Or.inr hc

/-- For dimensionality at least 1, the lexicographic order map is the union
of the clauses for dimensions `0` to `n_dims - 1`. -/
lemma create_lex_order_map_iff (n_dims : Nat) (hn : 1 ≤ n_dims)
    (xs ys : List Int) :
    create_lex_order_map n_dims xs ys ↔
      ∃ k, k < n_dims ∧ lex_order_clause k xs ys := by
  unfold create_lex_order_map
  rw [get_lex_order_constraint_iff]
  constructor
  · rintro ⟨k, hk, hc⟩
    exact ⟨k, by omega, hc⟩
  · rintro ⟨k, hk, hc⟩
    exact ⟨k, by omega, hc⟩

end LexOrderMap

/-- C2: for every dimensionality `N ≥ 1`, the lexicographic order map is
the union of exactly `N` clauses, where clause `k` (0-indexed) requires
equality of the two tuples on dimensions `0` through `k - 1` and strict
less-than on dimension `k`; for `N = 1` the map is the single clause
comparing dimension 0. -/
theorem lex_order_map_clause_union (n_dims : Nat) (hn : 1 ≤ n_dims)
    (xs ys : List Int) :
    (create_lex_order_map n_dims xs ys ↔
      ∃ k, k < n_dims ∧ (∀ j, j < k → xs.getD j 0 = ys.getD j 0) ∧
        xs.getD k 0 < ys.getD k 0) ∧
    (create_lex_order_map 1 xs ys ↔ xs.getD 0 0 < ys.getD 0 0) := by
  constructor
  · rw [create_lex_order_map_iff n_dims hn]
    constructor
    · rintro ⟨k, hk, hlt, heq⟩
      exact ⟨k, hk, heq, hlt⟩
    · rintro ⟨k, hk, heq, hlt⟩
      exact ⟨k, hk, hlt, heq⟩
  · exact Iff.rfl

/-- Witness for C2 at `N = 2`. -/
theorem lex_order_map_clause_union_witness :
    (create_lex_order_map 2 [0, 1] [0, 2] ↔
      ∃ k, k < 2 ∧
        (∀ j, j < k → List.getD [(0 : Int), 1] j 0 = List.getD [(0 : Int), 2] j 0) ∧
        List.getD [(0 : Int), 1] k 0 < List.getD [(0 : Int), 2] k 0) ∧
    (create_lex_order_map 1 [0, 1] [0, 2] ↔
      List.getD [(0 : Int), 1] 0 0 < List.getD [(0 : Int), 2] 0 0) :=
  lex_order_map_clause_union 2 (by decide) [0, 1] [0, 2]

section LexOrderMapProperties

/-- Reading any index of an all-zero tuple gives zero. -/
lemma getD_replicate_zero (z i : Nat) :
    (List.replicate z (0 : Int)).getD i 0 = 0 := by
  rcases Nat.lt_or_ge i z with h | h
  · rw [List.getD_eq_getElem _ _ (by simpa using h)]
    exact List.getElem_replicate ..
  · exact List.getD_eq_default _ _ (by simpa using h)

/-- Below the original length, a zero-padded tuple reads as the original. -/
lemma getD_pad_lt (A : List Int) (z j : Nat) (hj : j < A.length) :
    (A ++ List.replicate z 0).getD j 0 = A.getD j 0 :=
  List.getD_append A _ 0 j hj

/-- At or above the original length, a zero-padded tuple reads zero. -/
lemma getD_pad_ge (A : List Int) (z j : Nat) (hj : A.length ≤ j) :
    (A ++ List.replicate z 0).getD j 0 = 0 := by
  rw [List.getD_append_right A _ 0 j hj]
  exact getD_replicate_zero z (j - A.length)

end LexOrderMapProperties

/-- C5: for every dimensionality `N ≥ 1`, every pair of `N`-tuples of
integers, and every number `z` of trailing zeros appended to both tuples,
the zero-padded pair lies in the lexicographic order map of dimensionality
`N + z` exactly when the original pair lies in the lexicographic order map
of dimensionality `N`. -/
theorem lex_order_map_padding_invariant (n z : Nat) (A B : List Int)
    (hA : A.length = n) (hB : B.length = n) (hn : 1 ≤ n) :
    (create_lex_order_map (n + z)
        (A ++ List.replicate z 0) (B ++ List.replicate z 0) ↔
      create_lex_order_map n A B) := by
  rw [create_lex_order_map_iff (n + z) (by omega),
    create_lex_order_map_iff n hn]
  constructor
  · rintro ⟨k, hk, hlt, heq⟩
    have hkn : k < n := by
      by_contra hge
      push_neg at hge
      rw [getD_pad_ge A z k (by omega), getD_pad_ge B z k (by omega)] at hlt
      exact absurd hlt (lt_irrefl 0)
    refine ⟨k, hkn, ?_, ?_⟩
    · rwa [getD_pad_lt A z k (by omega), getD_pad_lt B z k (by omega)] at hlt
    · intro j hj
      have h := heq j hj
      rwa [getD_pad_lt A z j (by omega), getD_pad_lt B z j (by omega)] at h
  · rintro ⟨k, hk, hlt, heq⟩
    refine ⟨k, by omega, ?_, ?_⟩
    · rwa [getD_pad_lt A z k (by omega), getD_pad_lt B z k (by omega)]
    · intro j hj
      rw [getD_pad_lt A z j (by omega), getD_pad_lt B z j (by omega)]
      exact heq j hj

/-- Witness for C5 at `N = 2`, one appended zero. -/
theorem lex_order_map_padding_invariant_witness :
    (create_lex_order_map 3
        ([1, 2] ++ List.replicate 1 0) ([1, 3] ++ List.replicate 1 0) ↔
      create_lex_order_map 2 [1, 2] [1, 3]) :=
  lex_order_map_padding_invariant 2 1 [1, 2] [1, 3] rfl rfl (by decide)

section LexOrderMapTrichotomy

/-- The lexicographic order map never holds in both directions. -/
lemma lex_order_map_asymm (n : Nat) (hn : 1 ≤ n) (A B : List Int)
    (h1 : create_lex_order_map n A B) (h2 : create_lex_order_map n B A) :
    False := by
  obtain ⟨k1, hk1, hlt1, heq1⟩ := (create_lex_order_map_iff n hn A B).mp h1
  obtain ⟨k2, hk2, hlt2, heq2⟩ := (create_lex_order_map_iff n hn B A).mp h2
  rcases Nat.lt_trichotomy k1 k2 with h | h | h
  · have hb := heq2 k1 h
    omega
  · subst h
    omega
  · have ha := heq1 k2 h
    omega

/-- Any two distinct equal-length tuples are related by the lexicographic
order map in one direction or the other. -/
lemma lex_order_map_total (n : Nat) (hn : 1 ≤ n) (A B : List Int)
    (hA : A.length = n) (hB : B.length = n) (hne : A ≠ B) :
    create_lex_order_map n A B ∨ create_lex_order_map n B A := by
  have hex : ∃ j, A.getD j 0 ≠ B.getD j 0 := by
    by_contra hall
    push_neg at hall
    apply hne
    apply List.ext_getElem (by omega)
    intro i h1 h2
    have h := hall i
    rwa [List.getD_eq_getElem A 0 h1, List.getD_eq_getElem B 0 h2] at h
  have hk : A.getD (Nat.find hex) 0 ≠ B.getD (Nat.find hex) 0 :=
    Nat.find_spec hex
  have hmin : ∀ j, j < Nat.find hex → A.getD j 0 = B.getD j 0 :=
    fun j hj => not_not.mp (Nat.find_min hex hj)
  have hkn : Nat.find hex < n := by
    by_contra hge
    push_neg at hge
    apply hk
    rw [List.getD_eq_default A 0 (by omega), List.getD_eq_default B 0 (by omega)]
  rcases lt_trichotomy (A.getD (Nat.find hex) 0) (B.getD (Nat.find hex) 0)
    with h | h | h
  · exact Or.inl ((create_lex_order_map_iff n hn A B).mpr ⟨_, hkn, h, hmin⟩)
  · exact absurd h hk
  · exact Or.inr ((create_lex_order_map_iff n hn B A).mpr
      ⟨_, hkn, h, fun j hj => (hmin j hj).symm⟩)

end LexOrderMapTrichotomy

/-- C6: for every dimensionality `N ≥ 1` and every pair of `N`-tuples of
integers `A` and `B`, if `A` and `B` are distinct then exactly one of
`(A, B)` and `(B, A)` lies in the lexicographic order map, and if `A`
equals `B` then neither does. -/
theorem lex_order_map_trichotomy (n : Nat) (hn : 1 ≤ n) (A B : List Int)
    (hA : A.length = n) (hB : B.length = n) :
    (A ≠ B → Xor' (create_lex_order_map n A B) (create_lex_order_map n B A)) ∧
    (A = B → ¬ create_lex_order_map n A B ∧ ¬ create_lex_order_map n B A) := by
  constructor
  · intro hne
    rcases lex_order_map_total n hn A B hA hB hne with h | h
    · exact Or.inl ⟨h, fun h2 => lex_order_map_asymm n hn A B h h2⟩
    · exact Or.inr ⟨h, fun h2 => lex_order_map_asymm n hn A B h2 h⟩
  · rintro rfl
    exact ⟨fun h => lex_order_map_asymm n hn A A h h,
      fun h => lex_order_map_asymm n hn A A h h⟩

/-- Witness for C6 at `N = 2`. -/
theorem lex_order_map_trichotomy_witness :
    (([1, 2] : List Int) ≠ [1, 3] →
      Xor' (create_lex_order_map 2 [1, 2] [1, 3])
        (create_lex_order_map 2 [1, 3] [1, 2])) ∧
    (([1, 2] : List Int) = [1, 3] →
      ¬ create_lex_order_map 2 [1, 2] [1, 3] ∧
      ¬ create_lex_order_map 2 [1, 3] [1, 2]) :=
  lex_order_map_trichotomy 2 (by decide) [1, 2] [1, 3] rfl rfl

/-- C4: when pairwise-schedule construction completes, the two recorded
lexicographic points have been brought to equal length: each final point is
its recorded (pre-padding) point followed by trailing zeros (and only
zeros) up to the length of the longer recorded point, so the original
entries are preserved as a prefix. -/
theorem build_pads_recorded_lex_pts (items : List LinearizationItem)
    (before_insn_id after_insn_id : String) (loops_to_ignore : List String)
    (bi ai : LexScheduleStatementInstance)
    (h : buildLexSchedule items before_insn_id after_insn_id loops_to_ignore =
      some (bi, ai)) :
    bi.lex_pt.length = ai.lex_pt.length ∧
    ∃ st b0 a0,
      walkLinearization before_insn_id after_insn_id loops_to_ignore
        initWalkState items = some st ∧
      st.stmt_instance_before = some b0 ∧
      st.stmt_instance_after = some a0 ∧
      bi.lex_pt = b0.lex_pt ++ List.replicate
        (max_lex_dims b0 a0 - b0.lex_pt.length) (LexEntry.nat 0) ∧
      ai.lex_pt = a0.lex_pt ++ List.replicate
        (max_lex_dims b0 a0 - a0.lex_pt.length) (LexEntry.nat 0) := by
  unfold buildLexSchedule at h
  split at h
  · exact absurd h (by simp)
  · rename_i st hw
    split at h
    · rename_i b0 a0 hb ha
      rw [Option.some_inj, Prod.mk.injEq] at h
      obtain ⟨hbi, hai⟩ := h
      subst hbi hai
      refine ⟨?_, st, b0, a0, hw, hb, ha, rfl, rfl⟩
      simp only [pad_lex_pt_with_zeros, max_lex_dims, List.length_append,
        List.length_replicate]
      omega
    · exact absurd h (by simp)

/-- Witness for C4: in `x; for i { y }` the point recorded for `x` is
shorter than the one recorded for `y` and gets two trailing zeros. -/
theorem build_pads_recorded_lex_pts_witness :
    ({ stmt := { insn_id := "x", int_id := 0 }
       lex_pt := [LexEntry.nat 0, LexEntry.nat 0, LexEntry.nat 0] } :
         LexScheduleStatementInstance).lex_pt.length =
      ({ stmt := { insn_id := "y", int_id := 1 }
         lex_pt := [LexEntry.nat 2, LexEntry.iname "i", LexEntry.nat 0] } :
           LexScheduleStatementInstance).lex_pt.length ∧
    ∃ st b0 a0,
      walkLinearization "x" "y" [] initWalkState
        [LinearizationItem.runInstruction "x", LinearizationItem.enterLoop "i",
         LinearizationItem.runInstruction "y", LinearizationItem.leaveLoop "i"] =
        some st ∧
      st.stmt_instance_before = some b0 ∧
      st.stmt_instance_after = some a0 ∧
      ({ stmt := { insn_id := "x", int_id := 0 }
         lex_pt := [LexEntry.nat 0, LexEntry.nat 0, LexEntry.nat 0] } :
           LexScheduleStatementInstance).lex_pt =
        b0.lex_pt ++ List.replicate
          (max_lex_dims b0 a0 - b0.lex_pt.length) (LexEntry.nat 0) ∧
      ({ stmt := { insn_id := "y", int_id := 1 }
         lex_pt := [LexEntry.nat 2, LexEntry.iname "i", LexEntry.nat 0] } :
           LexScheduleStatementInstance).lex_pt =
        a0.lex_pt ++ List.replicate
          (max_lex_dims b0 a0 - a0.lex_pt.length) (LexEntry.nat 0) :=
  build_pads_recorded_lex_pts
    [LinearizationItem.runInstruction "x", LinearizationItem.enterLoop "i",
     LinearizationItem.runInstruction "y", LinearizationItem.leaveLoop "i"]
    "x" "y" [] _ _ (by decide)

section WalkLemmas

/-- Entering a loop never touches the recorded instances or the statement
counter. -/
lemma processItem_enterLoop_fields (b a : String) (ign : List String)
    (st st1 : WalkState) (iname : String)
    (h : processItem b a ign st (LinearizationItem.enterLoop iname) = some st1) :
    st1.stmt_instance_before = st.stmt_instance_before ∧
    st1.stmt_instance_after = st.stmt_instance_after ∧
    st1.next_sid = st.next_sid := by
  simp only [processItem] at h
  split at h
  · rw [Option.some_inj] at h
    subst h
    exact ⟨rfl, rfl, rfl⟩
  · split at h
    · exact absurd h (by simp)
    · split at h
      · split at h
        · exact absurd h (by simp)
        · rw [Option.some_inj] at h
          subst h
          exact ⟨rfl, rfl, rfl⟩
      · rw [Option.some_inj] at h
        subst h
        exact ⟨rfl, rfl, rfl⟩

/-- Leaving a loop never touches the recorded instances or the statement
counter. -/
lemma processItem_leaveLoop_fields (b a : String) (ign : List String)
    (st st1 : WalkState) (iname : String)
    (h : processItem b a ign st (LinearizationItem.leaveLoop iname) = some st1) :
    st1.stmt_instance_before = st.stmt_instance_before ∧
    st1.stmt_instance_after = st.stmt_instance_after ∧
    st1.next_sid = st.next_sid := by
  simp only [processItem] at h
  split at h
  · rw [Option.some_inj] at h
    subst h
    exact ⟨rfl, rfl, rfl⟩
  · split at h
    · exact absurd h (by simp)
    · split at h
      · exact absurd h (by simp)
      · split at h
        · exact absurd h (by simp)
        · split at h
          · exact absurd h (by simp)
          · split at h
            · split at h
              · exact absurd h (by simp)
              · rw [Option.some_inj] at h
                subst h
                exact ⟨rfl, rfl, rfl⟩
            · rw [Option.some_inj] at h
              subst h
              exact ⟨rfl, rfl, rfl⟩

/-- What the RunInstruction/Barrier branch does to the recorded instances
and the statement counter once a non-`None` instruction id has been
extracted. -/
lemma processStmtItem_spec (b a : String) (st st1 : WalkState) (lp : String)
    (h : processStmtItem b a st lp = some st1) :
    st1.stmt_instance_before =
      (if lp = b then
        some { stmt := { insn_id := lp, int_id := st.next_sid }
               lex_pt := st.next_insn_lex_pt }
       else st.stmt_instance_before) ∧
    st1.stmt_instance_after =
      (if lp = a then
        some { stmt := { insn_id := lp, int_id := st.next_sid }
               lex_pt := st.next_insn_lex_pt }
       else st.stmt_instance_after) ∧
    st.next_sid ≤ st1.next_sid ∧ st1.next_sid ≤ st.next_sid + 1 ∧
    ((lp = b ∨ lp = a) → st1.next_sid = st.next_sid + 1) := by
  unfold processStmtItem at h
  split at h
  · rename_i hc
    split at h
    · exact absurd h (by simp)
    · rw [Option.some_inj] at h
      subst h
      exact ⟨rfl, rfl, Nat.le_succ _, le_refl _, fun _ => rfl⟩
  · rename_i hc
    rw [Option.some_inj] at h
    subst h
    push_neg at hc
    rw [if_neg hc.1, if_neg hc.2]
    exact ⟨rfl, rfl, le_refl _, Nat.le_succ _,
      fun hor => absurd hor (by push_neg; exact hc)⟩

/-- Bookkeeping invariant for the statement-index counter along the walk:
every recorded index is below the counter, the two recorded indices differ
when the two target ids differ, and the two recorded instances coincide
when the target ids coincide. -/
def SidInv (b a : String) (st : WalkState) : Prop :=
  (∀ bi, st.stmt_instance_before = some bi → bi.stmt.int_id < st.next_sid) ∧
  (∀ ai, st.stmt_instance_after = some ai → ai.stmt.int_id < st.next_sid) ∧
  (b ≠ a → ∀ bi ai, st.stmt_instance_before = some bi →
    st.stmt_instance_after = some ai → bi.stmt.int_id ≠ ai.stmt.int_id) ∧
  (b = a → st.stmt_instance_before = st.stmt_instance_after)

lemma sidInv_init (b a : String) : SidInv b a initWalkState :=
  ⟨fun _ h => Option.noConfusion h, fun _ h => Option.noConfusion h,
   fun _ _ _ hb => Option.noConfusion hb, fun _ => rfl⟩

lemma processStmtItem_preserves_sidInv (b a : String) (st st1 : WalkState)
    (lp : String) (h : processStmtItem b a st lp = some st1)
    (hinv : SidInv b a st) : SidInv b a st1 := by
  obtain ⟨hb, ha, hsle, _, hbump⟩ := processStmtItem_spec b a st st1 lp h
  obtain ⟨ib, ia, idist, isame⟩ := hinv
  by_cases hlb : lp = b <;> by_cases hla : lp = a
  · rw [if_pos hlb] at hb
    rw [if_pos hla] at ha
    have hs1 : st1.next_sid = st.next_sid + 1 := hbump (Or.inl hlb)
    refine ⟨?_, ?_, ?_, ?_⟩
    · intro bi hbi
      rw [hb, Option.some_inj] at hbi
      subst hbi
      show st.next_sid < st1.next_sid
      omega
    · intro ai hai
      rw [ha, Option.some_inj] at hai
      subst hai
      show st.next_sid < st1.next_sid
      omega
    · intro hne
      exact absurd (hlb.symm.trans hla) hne
    · intro _
      rw [hb, ha]
  · rw [if_pos hlb] at hb
    rw [if_neg hla] at ha
    have hs1 : st1.next_sid = st.next_sid + 1 := hbump (Or.inl hlb)
    refine ⟨?_, ?_, ?_, ?_⟩
    · intro bi hbi
      rw [hb, Option.some_inj] at hbi
      subst hbi
      show st.next_sid < st1.next_sid
      omega
    · intro ai hai
      rw [ha] at hai
      have := ia ai hai
      omega
    · intro hne bi ai hbi hai
      rw [hb, Option.some_inj] at hbi
      rw [ha] at hai
      subst hbi
      have := ia ai hai
      show st.next_sid ≠ ai.stmt.int_id
      omega
    · intro heq
      exact absurd (heq ▸ hlb) hla
  · rw [if_neg hlb] at hb
    rw [if_pos hla] at ha
    have hs1 : st1.next_sid = st.next_sid + 1 := hbump (Or.inr hla)
    refine ⟨?_, ?_, ?_, ?_⟩
    · intro bi hbi
      rw [hb] at hbi
      have := ib bi hbi
      omega
    · intro ai hai
      rw [ha, Option.some_inj] at hai
      subst hai
      show st.next_sid < st1.next_sid
      omega
    · intro hne bi ai hbi hai
      rw [hb] at hbi
      rw [ha, Option.some_inj] at hai
      subst hai
      have := ib bi hbi
      show bi.stmt.int_id ≠ st.next_sid
      omega
    · intro heq
      exact absurd (heq.symm ▸ hla) hlb
  · rw [if_neg hlb] at hb
    rw [if_neg hla] at ha
    refine ⟨?_, ?_, ?_, ?_⟩
    · intro bi hbi
      rw [hb] at hbi
      have := ib bi hbi
      omega
    · intro ai hai
      rw [ha] at hai
      have := ia ai hai
      omega
    · intro hne bi ai hbi hai
      rw [hb] at hbi
      rw [ha] at hai
      exact idist hne bi ai hbi hai
    · intro heq
      rw [hb, ha]
      exact isame heq

lemma processItem_preserves_sidInv (b a : String) (ign : List String)
    (st st1 : WalkState) (item : LinearizationItem)
    (h : processItem b a ign st item = some st1)
    (hinv : SidInv b a st) : SidInv b a st1 := by
  cases item with
  | enterLoop iname =>
      obtain ⟨h1, h2, h3⟩ := processItem_enterLoop_fields b a ign st st1 iname h
      obtain ⟨ib, ia, idist, isame⟩ := hinv
      exact ⟨fun bi hbi => h3 ▸ ib bi (h1 ▸ hbi),
        fun ai hai => h3 ▸ ia ai (h2 ▸ hai),
        fun hne bi ai hbi hai => idist hne bi ai (h1 ▸ hbi) (h2 ▸ hai),
        fun heq => h1.trans ((isame heq).trans h2.symm)⟩
  | leaveLoop iname =>
      obtain ⟨h1, h2, h3⟩ := processItem_leaveLoop_fields b a ign st st1 iname h
      obtain ⟨ib, ia, idist, isame⟩ := hinv
      exact ⟨fun bi hbi => h3 ▸ ib bi (h1 ▸ hbi),
        fun ai hai => h3 ▸ ia ai (h2 ▸ hai),
        fun hne bi ai hbi hai => idist hne bi ai (h1 ▸ hbi) (h2 ▸ hai),
        fun heq => h1.trans ((isame heq).trans h2.symm)⟩
  | runInstruction insn_id =>
      simp only [processItem, get_insn_id_from_linearization_item] at h
      exact processStmtItem_preserves_sidInv b a st st1 insn_id h hinv
  | barrier orig =>
      cases orig with
      | none =>
          simp only [processItem, get_insn_id_from_linearization_item,
            Option.some_inj] at h
          subst h
          exact hinv
      | some s =>
          simp only [processItem, get_insn_id_from_linearization_item] at h
          exact processStmtItem_preserves_sidInv b a st st1 s h hinv

lemma processItem_sid_le (b a : String) (ign : List String)
    (st st1 : WalkState) (item : LinearizationItem)
    (h : processItem b a ign st item = some st1) :
    st1.next_sid ≤ st.next_sid + 1 := by
  cases item with
  | enterLoop iname =>
      have h3 := (processItem_enterLoop_fields b a ign st st1 iname h).2.2
      omega
  | leaveLoop iname =>
      have h3 := (processItem_leaveLoop_fields b a ign st st1 iname h).2.2
      omega
  | runInstruction insn_id =>
      simp only [processItem, get_insn_id_from_linearization_item] at h
      exact (processStmtItem_spec b a st st1 insn_id h).2.2.2.1
  | barrier orig =>
      cases orig with
      | none =>
          simp only [processItem, get_insn_id_from_linearization_item,
            Option.some_inj] at h
          subst h
          exact Nat.le_succ _
      | some s =>
          simp only [processItem, get_insn_id_from_linearization_item] at h
          exact (processStmtItem_spec b a st st1 s h).2.2.2.1

lemma walk_preserves_sidInv (b a : String) (ign : List String)
    (items : List LinearizationItem) :
    ∀ st st1 : WalkState,
      walkLinearization b a ign st items = some st1 →
      SidInv b a st → SidInv b a st1 := by
  induction items with
  | nil =>
      intro st st1 h hinv
      simp only [walkLinearization, Option.some_inj] at h
      subst h
      exact hinv
  | cons item rest ih =>
      intro st st1 h hinv
      cases hp : processItem b a ign st item with
      | none =>
          simp only [walkLinearization, hp] at h
          exact Option.noConfusion h
      | some st2 =>
          simp only [walkLinearization, hp] at h
          have hinv2 := processItem_preserves_sidInv b a ign st st2 item hp hinv
          split at h
          · rw [Option.some_inj] at h
            subst h
            exact hinv2
          · exact ih st2 st1 h hinv2

lemma walk_sid_le (b a : String) (ign : List String)
    (items : List LinearizationItem) :
    ∀ st st1 : WalkState,
      walkLinearization b a ign st items = some st1 →
      st1.next_sid ≤ st.next_sid + items.length := by
  induction items with
  | nil =>
      intro st st1 h
      simp only [walkLinearization, Option.some_inj] at h
      subst h
      simp
  | cons item rest ih =>
      intro st st1 h
      cases hp : processItem b a ign st item with
      | none =>
          simp only [walkLinearization, hp] at h
          exact Option.noConfusion h
      | some st2 =>
          simp only [walkLinearization, hp] at h
          have h2 := processItem_sid_le b a ign st st2 item hp
          split at h
          · rw [Option.some_inj] at h
            subst h
            simp only [List.length_cons]
            omega
          · have h3 := ih st2 st1 h
            simp only [List.length_cons]
            omega

lemma processItem_before_source (b a : String) (ign : List String)
    (st st1 : WalkState) (item : LinearizationItem)
    (h : processItem b a ign st item = some st1) :
    st1.stmt_instance_before = st.stmt_instance_before ∨
      get_insn_id_from_linearization_item item = some b := by
  cases item with
  | enterLoop iname =>
      exact Or.inl (processItem_enterLoop_fields b a ign st st1 iname h).1
  | leaveLoop iname =>
      exact Or.inl (processItem_leaveLoop_fields b a ign st st1 iname h).1
  | runInstruction insn_id =>
      simp only [processItem, get_insn_id_from_linearization_item] at h
      obtain ⟨hb, _⟩ := processStmtItem_spec b a st st1 insn_id h
      by_cases hlb : insn_id = b
      · exact Or.inr (by rw [get_insn_id_from_linearization_item, hlb])
      · rw [if_neg hlb] at hb
        exact Or.inl hb
  | barrier orig =>
      cases orig with
      | none =>
          simp only [processItem, get_insn_id_from_linearization_item,
            Option.some_inj] at h
          subst h
          exact Or.inl rfl
      | some s =>
          simp only [processItem, get_insn_id_from_linearization_item] at h
          obtain ⟨hb, _⟩ := processStmtItem_spec b a st st1 s h
          by_cases hlb : s = b
          · exact Or.inr (by rw [get_insn_id_from_linearization_item, hlb])
          · rw [if_neg hlb] at hb
            exact Or.inl hb

lemma processItem_after_source (b a : String) (ign : List String)
    (st st1 : WalkState) (item : LinearizationItem)
    (h : processItem b a ign st item = some st1) :
    st1.stmt_instance_after = st.stmt_instance_after ∨
      get_insn_id_from_linearization_item item = some a := by
  cases item with
  | enterLoop iname =>
      exact Or.inl (processItem_enterLoop_fields b a ign st st1 iname h).2.1
  | leaveLoop iname =>
      exact Or.inl (processItem_leaveLoop_fields b a ign st st1 iname h).2.1
  | runInstruction insn_id =>
      simp only [processItem, get_insn_id_from_linearization_item] at h
      obtain ⟨_, ha, _⟩ := processStmtItem_spec b a st st1 insn_id h
      by_cases hla : insn_id = a
      · exact Or.inr (by rw [get_insn_id_from_linearization_item, hla])
      · rw [if_neg hla] at ha
        exact Or.inl ha
  | barrier orig =>
      cases orig with
      | none =>
          simp only [processItem, get_insn_id_from_linearization_item,
            Option.some_inj] at h
          subst h
          exact Or.inl rfl
      | some s =>
          simp only [processItem, get_insn_id_from_linearization_item] at h
          obtain ⟨_, ha, _⟩ := processStmtItem_spec b a st st1 s h
          by_cases hla : s = a
          · exact Or.inr (by rw [get_insn_id_from_linearization_item, hla])
          · rw [if_neg hla] at ha
            exact Or.inl ha

lemma walk_before_source (b a : String) (ign : List String)
    (items : List LinearizationItem) :
    ∀ st st1 : WalkState,
      walkLinearization b a ign st items = some st1 →
      st1.stmt_instance_before.isSome = true →
      st.stmt_instance_before.isSome = true ∨
        ∃ item ∈ items, get_insn_id_from_linearization_item item = some b := by
  induction items with
  | nil =>
      intro st st1 h hs
      simp only [walkLinearization, Option.some_inj] at h
      subst h
      exact Or.inl hs
  | cons item rest ih =>
      intro st st1 h hs
      cases hp : processItem b a ign st item with
      | none =>
          simp only [walkLinearization, hp] at h
          exact Option.noConfusion h
      | some st2 =>
          simp only [walkLinearization, hp] at h
          have step : st2.stmt_instance_before.isSome = true →
              st.stmt_instance_before.isSome = true ∨
                ∃ x ∈ item :: rest,
                  get_insn_id_from_linearization_item x = some b := by
            intro hs2
            rcases processItem_before_source b a ign st st2 item hp with h1 | h1
            · exact Or.inl (h1 ▸ hs2)
            · exact Or.inr ⟨item, List.mem_cons_self item rest, h1⟩
          split at h
          · rw [Option.some_inj] at h
            subst h
            exact step hs
          · rcases ih st2 st1 h hs with h2 | h2
            · exact step h2
            · obtain ⟨x, hx, hxb⟩ := h2
              exact Or.inr ⟨x, List.mem_cons_of_mem item hx, hxb⟩

lemma walk_after_source (b a : String) (ign : List String)
    (items : List LinearizationItem) :
    ∀ st st1 : WalkState,
      walkLinearization b a ign st items = some st1 →
      st1.stmt_instance_after.isSome = true →
      st.stmt_instance_after.isSome = true ∨
        ∃ item ∈ items, get_insn_id_from_linearization_item item = some a := by
  induction items with
  | nil =>
      intro st st1 h hs
      simp only [walkLinearization, Option.some_inj] at h
      subst h
      exact Or.inl hs
  | cons item rest ih =>
      intro st st1 h hs
      cases hp : processItem b a ign st item with
      | none =>
          simp only [walkLinearization, hp] at h
          exact Option.noConfusion h
      | some st2 =>
          simp only [walkLinearization, hp] at h
          have step : st2.stmt_instance_after.isSome = true →
              st.stmt_instance_after.isSome = true ∨
                ∃ x ∈ item :: rest,
                  get_insn_id_from_linearization_item x = some a := by
            intro hs2
            rcases processItem_after_source b a ign st st2 item hp with h1 | h1
            · exact Or.inl (h1 ▸ hs2)
            · exact Or.inr ⟨item, List.mem_cons_self item rest, h1⟩
          split at h
          · rw [Option.some_inj] at h
            subst h
            exact step hs
          · rcases ih st2 st1 h hs with h2 | h2
            · exact step h2
            · obtain ⟨x, hx, hxa⟩ := h2
              exact Or.inr ⟨x, List.mem_cons_of_mem item hx, hxa⟩

end WalkLemmas

/-- C9: within one schedule-building pass, the two recorded statement
instances carry statement indices that are small non-negative integers
(bounded by the number of linearization items), that differ whenever the
two target statement ids differ, and that coincide (the same id always
receives the same index) whenever the before and after ids are the same
statement. -/
theorem statement_indices_unique_and_consistent
    (items : List LinearizationItem) (before_insn_id after_insn_id : String)
    (loops_to_ignore : List String) (bi ai : LexScheduleStatementInstance)
    (h : buildLexSchedule items before_insn_id after_insn_id loops_to_ignore =
      some (bi, ai)) :
    bi.stmt.int_id < items.length ∧ ai.stmt.int_id < items.length ∧
    (before_insn_id ≠ after_insn_id → bi.stmt.int_id ≠ ai.stmt.int_id) ∧
    (before_insn_id = after_insn_id → bi.stmt.int_id = ai.stmt.int_id) := by
  unfold buildLexSchedule at h
  split at h
  · exact absurd h (by simp)
  · rename_i st hw
    split at h
    · rename_i b0 a0 hb ha
      rw [Option.some_inj, Prod.mk.injEq] at h
      obtain ⟨h1, h2⟩ := h
      subst h1 h2
      obtain ⟨ib, ia, idist, isame⟩ :=
        walk_preserves_sidInv before_insn_id after_insn_id loops_to_ignore
          items initWalkState st hw
          (sidInv_init before_insn_id after_insn_id)
      have hble := ib b0 hb
      have hale := ia a0 ha
      have hsle := walk_sid_le before_insn_id after_insn_id loops_to_ignore
        items initWalkState st hw
      have hinit : initWalkState.next_sid = 0 := rfl
      refine ⟨?_, ?_, ?_, ?_⟩
      · show b0.stmt.int_id < items.length
        omega
      · show a0.stmt.int_id < items.length
        omega
      · intro hne
        show b0.stmt.int_id ≠ a0.stmt.int_id
        exact idist hne b0 a0 hb ha
      · intro heq
        show b0.stmt.int_id = a0.stmt.int_id
        have hba : b0 = a0 := by
          have := isame heq
          rw [hb, ha, Option.some_inj] at this
          exact this
        rw [hba]
    · exact absurd h (by simp)

/-- Witness for C9 on the two-statement linearization `x; y`. -/
theorem statement_indices_unique_and_consistent_witness :
    ({ stmt := { insn_id := "x", int_id := 0 }
       lex_pt := [LexEntry.nat 0] } :
         LexScheduleStatementInstance).stmt.int_id < 2 ∧
    ({ stmt := { insn_id := "y", int_id := 1 }
       lex_pt := [LexEntry.nat 1] } :
         LexScheduleStatementInstance).stmt.int_id < 2 ∧
    ("x" ≠ "y" →
      ({ stmt := { insn_id := "x", int_id := 0 }
         lex_pt := [LexEntry.nat 0] } :
           LexScheduleStatementInstance).stmt.int_id ≠
        ({ stmt := { insn_id := "y", int_id := 1 }
           lex_pt := [LexEntry.nat 1] } :
             LexScheduleStatementInstance).stmt.int_id) ∧
    ("x" = "y" →
      ({ stmt := { insn_id := "x", int_id := 0 }
         lex_pt := [LexEntry.nat 0] } :
           LexScheduleStatementInstance).stmt.int_id =
        ({ stmt := { insn_id := "y", int_id := 1 }
           lex_pt := [LexEntry.nat 1] } :
             LexScheduleStatementInstance).stmt.int_id) := by
  have h := statement_indices_unique_and_consistent
    [LinearizationItem.runInstruction "x", LinearizationItem.runInstruction "y"]
    "x" "y" []
    { stmt := { insn_id := "x", int_id := 0 }, lex_pt := [LexEntry.nat 0] }
    { stmt := { insn_id := "y", int_id := 1 }, lex_pt := [LexEntry.nat 1] }
    (by decide)
  simp only at h
  exact h

/-- C10: pairwise-schedule construction only completes when each target
statement id occurs as the id of some RunInstruction or Barrier item of
the linearization; with a never-occurring target the recorded instance
stays `None` and the final padding step fails instead of returning a
schedule with a missing side. -/
theorem build_requires_both_targets (items : List LinearizationItem)
    (before_insn_id after_insn_id : String) (loops_to_ignore : List String)
    (p : LexScheduleStatementInstance × LexScheduleStatementInstance)
    (h : buildLexSchedule items before_insn_id after_insn_id loops_to_ignore =
      some p) :
    (∃ item ∈ items,
      get_insn_id_from_linearization_item item = some before_insn_id) ∧
    (∃ item ∈ items,
      get_insn_id_from_linearization_item item = some after_insn_id) := by
  unfold buildLexSchedule at h
  split at h
  · exact absurd h (by simp)
  · rename_i st hw
    split at h
    · rename_i b0 a0 hb ha
      constructor
      · rcases walk_before_source before_insn_id after_insn_id loops_to_ignore
            items initWalkState st hw (by rw [hb]; rfl) with h1 | h1
        · exact absurd h1 (by simp [initWalkState])
        · exact h1
      · rcases walk_after_source before_insn_id after_insn_id loops_to_ignore
            items initWalkState st hw (by rw [ha]; rfl) with h1 | h1
        · exact absurd h1 (by simp [initWalkState])
        · exact h1
    · exact absurd h (by simp)

/-- Witness for C10: both targets occur in `x; y`. -/
theorem build_requires_both_targets_witness :
    (∃ item ∈ [LinearizationItem.runInstruction "x",
        LinearizationItem.runInstruction "y"],
      get_insn_id_from_linearization_item item = some "x") ∧
    (∃ item ∈ [LinearizationItem.runInstruction "x",
        LinearizationItem.runInstruction "y"],
      get_insn_id_from_linearization_item item = some "y") :=
  build_requires_both_targets
    [LinearizationItem.runInstruction "x", LinearizationItem.runInstruction "y"]
    "x" "y" []
    ({ stmt := { insn_id := "x", int_id := 0 }, lex_pt := [LexEntry.nat 0] },
     { stmt := { insn_id := "y", int_id := 1 }, lex_pt := [LexEntry.nat 1] })
    (by decide)

section Alignment

lemma except_ok_then {ε α β : Type} (a : α) (f : α → Except ε β) :
    (Except.ok a : Except ε α) >>= f = f a := rfl

lemma except_error_then {ε α β : Type} (e : ε) (f : α → Except ε β) :
    (Except.error e : Except ε α) >>= f = Except.error e := rfl

/-- `set(a) == set(b)` in terms of mutual membership. -/
lemma same_name_set_iff (a b : List String) :
    same_name_set a b = true ↔ ((∀ x ∈ a, x ∈ b) ∧ (∀ x ∈ b, x ∈ a)) := by
  simp [same_name_set, List.all_eq_true, List.contains, List.elem_iff]

/-- For duplicate-free name lists, `set(a) == set(b)` is the same as the
lists being permutations of one another. -/
lemma same_name_set_iff_perm (a b : List String)
    (ha : a.Nodup) (hb : b.Nodup) :
    same_name_set a b = true ↔ a.Perm b := by
  rw [same_name_set_iff]
  constructor
  · rintro ⟨h1, h2⟩
    exact (List.subperm_of_subset ha fun x hx => h1 x hx).antisymm
      (List.subperm_of_subset hb fun x hx => h2 x hx)
  · intro hp
    exact ⟨fun x hx => hp.subset hx, fun x hx => hp.symm.subset hx⟩

/-- Closed-form computation of `ensure_dim_names_match_and_align`. -/
lemma ensure_dim_names_match_and_align_eq (obj_map tgt_map : NamedMap) :
    ensure_dim_names_match_and_align obj_map tgt_map =
      if same_name_set obj_map.in_names tgt_map.in_names ∧
         same_name_set obj_map.out_names tgt_map.out_names ∧
         same_name_set obj_map.param_names tgt_map.param_names then
        Except.ok (align_spaces obj_map tgt_map)
      else Except.error "Set of map names does not match target set" := by
  unfold ensure_dim_names_match_and_align map_names_match_check
  by_cases c1 : same_name_set obj_map.in_names tgt_map.in_names = true <;>
    by_cases c2 : same_name_set obj_map.out_names tgt_map.out_names = true <;>
      by_cases c3 : same_name_set obj_map.param_names tgt_map.param_names = true <;>
        simp [c1, c2, c3, except_ok_then, except_error_then]

end Alignment

/-- C8: for duplicate-free dimension-name lists, space alignment of a
constraint map to a target map raises an error exactly when, for one of
the in/out/param dimension kinds, the constraint map's names are not a
permutation of the target's; when the names are permutations for all
three kinds, alignment succeeds and the returned map carries the target's
dimension names in the target's order. -/
theorem align_errors_iff_name_mismatch (obj_map tgt_map : NamedMap)
    (h1 : obj_map.in_names.Nodup) (h2 : tgt_map.in_names.Nodup)
    (h3 : obj_map.out_names.Nodup) (h4 : tgt_map.out_names.Nodup)
    (h5 : obj_map.param_names.Nodup) (h6 : tgt_map.param_names.Nodup) :
    ((¬ obj_map.in_names.Perm tgt_map.in_names ∨
      ¬ obj_map.out_names.Perm tgt_map.out_names ∨
      ¬ obj_map.param_names.Perm tgt_map.param_names) →
      ∃ e, ensure_dim_names_match_and_align obj_map tgt_map =
        Except.error e) ∧
    ((obj_map.in_names.Perm tgt_map.in_names ∧
      obj_map.out_names.Perm tgt_map.out_names ∧
      obj_map.param_names.Perm tgt_map.param_names) →
      ∃ m, ensure_dim_names_match_and_align obj_map tgt_map = Except.ok m ∧
        m.in_names = tgt_map.in_names ∧ m.out_names = tgt_map.out_names ∧
        m.param_names = tgt_map.param_names) := by
  rw [ensure_dim_names_match_and_align_eq]
  constructor
  · intro hmis
    rw [if_neg]
    · exact ⟨_, rfl⟩
    · rintro ⟨c1, c2, c3⟩
      rcases hmis with hm | hm | hm
      · exact hm ((same_name_set_iff_perm _ _ h1 h2).mp c1)
      · exact hm ((same_name_set_iff_perm _ _ h3 h4).mp c2)
      · exact hm ((same_name_set_iff_perm _ _ h5 h6).mp c3)
  · rintro ⟨hp1, hp2, hp3⟩
    rw [if_pos ⟨(same_name_set_iff_perm _ _ h1 h2).mpr hp1,
      (same_name_set_iff_perm _ _ h3 h4).mpr hp2,
      (same_name_set_iff_perm _ _ h5 h6).mpr hp3⟩]
    exact ⟨align_spaces obj_map tgt_map, rfl, rfl, rfl, rfl⟩

/-- Witness for C8 with in-dimension names in a different order. -/
theorem align_errors_iff_name_mismatch_witness :
    ((¬ List.Perm ["a", "b"] ["b", "a"] ∨
      ¬ List.Perm ["c"] ["c"] ∨
      ¬ List.Perm ([] : List String) []) →
      ∃ e, ensure_dim_names_match_and_align
        { in_names := ["a", "b"], out_names := ["c"], param_names := []
          pairs := [([1, 2], [3])] }
        { in_names := ["b", "a"], out_names := ["c"], param_names := []
          pairs := [] } = Except.error e) ∧
    ((List.Perm ["a", "b"] ["b", "a"] ∧
      List.Perm ["c"] ["c"] ∧
      List.Perm ([] : List String) []) →
      ∃ m, ensure_dim_names_match_and_align
        { in_names := ["a", "b"], out_names := ["c"], param_names := []
          pairs := [([1, 2], [3])] }
        { in_names := ["b", "a"], out_names := ["c"], param_names := []
          pairs := [] } = Except.ok m ∧
        m.in_names = ["b", "a"] ∧ m.out_names = ["c"] ∧
        m.param_names = ([] : List String)) :=
  align_errors_iff_name_mismatch
    { in_names := ["a", "b"], out_names := ["c"], param_names := []
      pairs := [([1, 2], [3])] }
    { in_names := ["b", "a"], out_names := ["c"], param_names := []
      pairs := [] }
    (by decide) (by decide) (by decide) (by decide) (by decide) (by decide)

section CheckerAggregation

lemma check_fold_spec {D : Type} (constraint_map_of sio_of : D → NamedMap)
    (deps : List D) :
    ∀ acc : Bool × List D,
      (∀ d ∈ deps, ∃ m,
        ensure_dim_names_match_and_align (constraint_map_of d) (sio_of d) =
          Except.ok m) →
      deps.foldlM (check_one_dependency constraint_map_of sio_of) acc =
        Except.ok (acc.1 && deps.all (dep_passes constraint_map_of sio_of),
          acc.2 ++ deps.filter
            (fun d => ! dep_passes constraint_map_of sio_of d)) := by
  induction deps with
  | nil =>
      intro acc h
      simp only [List.foldlM_nil, List.all_nil, Bool.and_true,
        List.filter_nil, List.append_nil]
      rfl
  | cons d ds ih =>
      intro acc h
      obtain ⟨m, hm⟩ := h d (List.mem_cons_self d ds)
      have hrest := fun x hx => h x (List.mem_cons_of_mem d hx)
      have hpass : dep_passes constraint_map_of sio_of d =
          m.is_subset (sio_of d) := by
        unfold dep_passes
        rw [hm]
      have hstep : check_one_dependency constraint_map_of sio_of acc d =
          Except.ok (if m.is_subset (sio_of d) = true then acc
            else (false, acc.2 ++ [d])) := by
        simp only [check_one_dependency, hm, except_ok_then]
        split
        · rfl
        · rfl
      rw [List.foldlM_cons, hstep, except_ok_then]
      by_cases hc : m.is_subset (sio_of d) = true
      · rw [if_pos hc, ih acc hrest]
        simp [List.all_cons, List.filter_cons, hpass, hc]
      · rw [if_neg hc, ih (false, acc.2 ++ [d]) hrest]
        simp only [Bool.not_eq_true] at hc
        simp [List.all_cons, List.filter_cons, hpass, hc, List.append_assoc]

end CheckerAggregation

/-- C3: when every dependency aligns, the validity checker never raises on
a subset violation: it returns a boolean that is true exactly when every
dependency's aligned constraint map is a subset of its SIO, and its
diagnostics log lists every failing dependency — a failure is recorded and
checking continues through every remaining dependency. -/
theorem check_linearization_validity_aggregate {D : Type} (deps : List D)
    (constraint_map_of sio_of : D → NamedMap)
    (h : ∀ d ∈ deps, ∃ m,
      ensure_dim_names_match_and_align (constraint_map_of d) (sio_of d) =
        Except.ok m) :
    check_linearization_validity deps constraint_map_of sio_of =
      Except.ok (deps.all (dep_passes constraint_map_of sio_of),
        deps.filter (fun d => ! dep_passes constraint_map_of sio_of d)) ∧
    (deps.all (dep_passes constraint_map_of sio_of) = true ↔
      ∀ d ∈ deps, dep_passes constraint_map_of sio_of d = true) := by
  constructor
  · have hf := check_fold_spec constraint_map_of sio_of deps (true, []) h
    simpa [check_linearization_validity] using hf
  · exact List.all_eq_true

/-- Concrete per-dependency constraint maps for the checker witness:
dependency 0 passes its subset test, dependency 1 fails it. -/
def witnessConstraintMaps : Nat → NamedMap := fun d =>
  if d = 0 then
    { in_names := ["a"], out_names := ["b"], param_names := []
      pairs := [([1], [2])] }
  else
    { in_names := ["a"], out_names := ["b"], param_names := []
      pairs := [([5], [6])] }

/-- Concrete per-dependency SIO maps for the checker witness. -/
def witnessSioMaps : Nat → NamedMap := fun _ =>
  { in_names := ["a"], out_names := ["b"], param_names := []
    pairs := [([1], [2])] }

/-- Witness for C3 on two dependencies, the second violating its SIO. -/
theorem check_linearization_validity_aggregate_witness :
    (check_linearization_validity [0, 1] witnessConstraintMaps witnessSioMaps =
      Except.ok
        (List.all [0, 1] (dep_passes witnessConstraintMaps witnessSioMaps),
         List.filter
           (fun d => ! dep_passes witnessConstraintMaps witnessSioMaps d)
           [0, 1])) ∧
    (List.all [0, 1] (dep_passes witnessConstraintMaps witnessSioMaps) = true ↔
      ∀ d ∈ [0, 1],
        dep_passes witnessConstraintMaps witnessSioMaps d = true) :=
  check_linearization_validity_aggregate [0, 1]
    witnessConstraintMaps witnessSioMaps
    (by
      intro d hd
      simp only [List.mem_cons, List.not_mem_nil, or_false] at hd
      rcases hd with rfl | rfl
      · exact ⟨_, rfl⟩
      · exact ⟨_, rfl⟩)

end Loopy
